import Mathlib

/-!
# Verification of the `manifold.py` word-neighbor pipeline

Shallow embedding of the spectral word-neighbor pipeline driven by
`src/manifold.py` (repository `2015-lxa-py`).  The driver `main` wires
together functions imported from `manifold_module`, whose source is not in
the repository snapshot; those functions are modelled from the spec (each
such definition carries a doc comment starting `Modelled from the spec:`).
Everything defined directly in `manifold.py` (vocabulary clamping, the
shared-context product, column slicing of the eigenvector matrix, the
word-to-neighbors loop, the output file writing) is embedded from the
source.

Real values are embedded as rationals (`ℚ`); exact arithmetic stands in
for floating point, so "within floating-point tolerance" statements are
proved exactly.
-/

namespace Manifold

/-! ## Vocabulary sizing (manifold.py lines 99-106) -/

/-- Embeds manifold.py lines 99-103:
`if lenMywords > maxwordtypes: nWordsForAnalysis = maxwordtypes else: lenMywords`. -/
def nWordsForAnalysis (maxwordtypes lenMywords : ℕ) : ℕ :=
  if lenMywords > maxwordtypes then maxwordtypes else lenMywords

/-- Embeds manifold.py line 106:
`analyzedwordlist = list(mywords.keys())[:nWordsForAnalysis]`. -/
def analyzedwordlist (mywords : List String) (maxwordtypes : ℕ) : List String :=
  mywords.take (nWordsForAnalysis maxwordtypes mywords.length)

theorem nWordsForAnalysis_eq_min (maxwordtypes lenMywords : ℕ) :
    nWordsForAnalysis maxwordtypes lenMywords = min maxwordtypes lenMywords := by
  unfold nWordsForAnalysis
  rcases lt_or_le maxwordtypes lenMywords with h | h
  · simp [h, Nat.min_eq_left h.le]
  · simp [not_lt.mpr h, Nat.min_eq_right h]

theorem analyzedwordlist_length (mywords : List String) (maxwordtypes : ℕ) :
    (analyzedwordlist mywords maxwordtypes).length
      = min maxwordtypes mywords.length := by
  simp [analyzedwordlist, nWordsForAnalysis_eq_min, Nat.min_comm]

/-! ## Shared contexts (manifold.py line 138)

The context array is a word × context count matrix; rows are indexed by the
analyzed words in order, entries are occurrence counts (naturals). -/

/-- Embeds manifold.py line 138:
`CountOfSharedContexts = context_array.dot(context_array.T)`;
entry (i,j) is the dot product of rows i and j of the context array. -/
def sharedContexts {n c : ℕ} (A : Fin n → Fin c → ℕ) : Fin n → Fin n → ℕ :=
  fun i j => ∑ k, A i k * A j k

/-- A word's total context mass: the sum of its row of the context array
(total number of context occurrences observed for the word). -/
def totalContextMass {n c : ℕ} (A : Fin n → Fin c → ℕ) (i : Fin n) : ℕ :=
  ∑ k, A i k

theorem sharedContexts_symm {n c : ℕ} (A : Fin n → Fin c → ℕ) (i j : Fin n) :
    sharedContexts A i j = sharedContexts A j i := by
  unfold sharedContexts
  exact Finset.sum_congr rfl fun k _ => Nat.mul_comm _ _

theorem sharedContexts_diag_eq_sum_sq {n c : ℕ} (A : Fin n → Fin c → ℕ) (i : Fin n) :
    sharedContexts A i i = ∑ k, (A i k) ^ 2 := by
  unfold sharedContexts
  exact Finset.sum_congr rfl fun k _ => (sq (A i k)).symm

/-! ## Normalization, incidence graph, Laplacian

`Normalize`, `compute_incidence_graph` and `compute_laplacian` live in
`manifold_module`, which is not in the repository snapshot; they are
modelled from the spec (§3, §4.3, §4.4, §9).  The spec leaves the exact
normalization formula open ("do not guess the original numeric formula,
document whichever bounded, symmetric, NaN-safe normalization is chosen");
we document the chosen one below. -/

/-- Modelled from the spec: `Normalize` (manifold_module, missing from src).
Per §4.3 the normalization turns the shared-context matrix into a bounded
symmetric similarity with a guarded division.  Chosen formula:
entry (i,j) = S i j / (S i i + S j j) off the diagonal, with the diagonal
neutralized to 0 and a zero denominator guarded to yield 0 similarity. -/
def Normalize {n : ℕ} (S : Fin n → Fin n → ℕ) : Fin n → Fin n → ℚ :=
  fun i j =>
    if i = j then 0
    else if S i i + S j j = 0 then 0
    else (S i j : ℚ) / ((S i i : ℚ) + (S j j : ℚ))

/-- Modelled from the spec: `compute_incidence_graph` (manifold_module,
missing from src).  Per §4.4 the weighted adjacency of the word graph is the
normalized similarity with no self-loops. -/
def compute_incidence_graph {n : ℕ} (Diameter : Fin n → Fin n → ℚ) :
    Fin n → Fin n → ℚ :=
  fun i j => if i = j then 0 else Diameter i j

/-- Modelled from the spec: `compute_laplacian` (manifold_module, missing
from src).  Per §4.4: `L = D − W` where `D` is the diagonal of row sums of
the weighted adjacency `W`. -/
def compute_laplacian {n : ℕ} (W : Fin n → Fin n → ℚ) : Fin n → Fin n → ℚ :=
  fun i j => (if i = j then ∑ k, W i k else 0) - W i j

theorem Normalize_symm {n : ℕ} (S : Fin n → Fin n → ℕ)
    (hS : ∀ i j, S i j = S j i) (i j : Fin n) :
    Normalize S i j = Normalize S j i := by
  unfold Normalize
  rcases eq_or_ne i j with h | h
  · simp [h]
  · simp only [h, h.symm, if_false]
    rw [hS i j, Nat.add_comm (S j j) (S i i), add_comm ((S j j : ℚ)) ((S i i : ℚ))]

/-- The pipeline's weighted adjacency, as wired in main (lines 138-146):
shared contexts from the context array, normalized, self-loops removed. -/
def pipelineAdjacency {n c : ℕ} (A : Fin n → Fin c → ℕ) : Fin n → Fin n → ℚ :=
  compute_incidence_graph (Normalize (sharedContexts A))

/-- The pipeline's Laplacian, as wired in main (line 149). -/
def pipelineLaplacian {n c : ℕ} (A : Fin n → Fin c → ℕ) : Fin n → Fin n → ℚ :=
  compute_laplacian (pipelineAdjacency A)

theorem pipelineAdjacency_symm {n c : ℕ} (A : Fin n → Fin c → ℕ) (i j : Fin n) :
    pipelineAdjacency A i j = pipelineAdjacency A j i := by
  unfold pipelineAdjacency compute_incidence_graph
  rcases eq_or_ne i j with h | h
  · simp [h]
  · simp only [h, h.symm, if_false]
    exact Normalize_symm _ (sharedContexts_symm A) i j

theorem compute_laplacian_symm {n : ℕ} (W : Fin n → Fin n → ℚ)
    (hW : ∀ i j, W i j = W j i) (i j : Fin n) :
    compute_laplacian W i j = compute_laplacian W j i := by
  unfold compute_laplacian
  rcases eq_or_ne i j with h | h
  · subst h; rfl
  · simp only [h, h.symm, if_false, hW i j]

theorem compute_laplacian_rowsum {n : ℕ} (W : Fin n → Fin n → ℚ) (i : Fin n) :
    ∑ j, compute_laplacian W i j = 0 := by
  unfold compute_laplacian
  rw [Finset.sum_sub_distrib]
  have h : (∑ j, if i = j then (∑ k, W i k) else 0) = ∑ k, W i k := by
    rw [Finset.sum_ite_eq (Finset.univ) i (fun _ => ∑ k, W i k)]
    simp
  rw [h, sub_self]

/-! ## Embedding coordinates and distances (manifold.py lines 158-162) -/

/-- Embeds manifold.py line 160:
`coordinates = myeigenvectors[:,:nEigenvectors]` — the first
`nEigenvectors` columns of the eigenvector matrix (numpy slicing clamps to
the available column count, hence `min nEigenvectors n` columns).  Note the
slice starts at column 0: no column is dropped. -/
def coordinates {n : ℕ} (myeigenvectors : Fin n → Fin n → ℚ) (nEigenvectors : ℕ) :
    Fin n → Fin (min nEigenvectors n) → ℚ :=
  fun i j => myeigenvectors i ⟨j.val, lt_of_lt_of_le j.isLt (min_le_right _ _)⟩

/-- Modelled from the spec: `compute_words_distance` (manifold_module,
missing from src).  Per §4.6: "compute full pairwise Euclidean distance
matrix over the N embedding rows".  The squared Euclidean distance is used
(exact in ℚ); it induces the same comparisons and rankings as the Euclidean
distance since squaring is monotone on nonnegative reals. -/
def compute_words_distance {n m : ℕ} (coords : Fin n → Fin m → ℚ) :
    Fin n → Fin n → ℚ :=
  fun i j => ∑ k, (coords i k - coords j k) ^ 2

/-- A per-column sign choice applied to the embedding: models the sign
ambiguity of eigenvectors returned by a numerical eigensolver. -/
def flipSigns {n m : ℕ} (s : Fin m → Bool) (coords : Fin n → Fin m → ℚ) :
    Fin n → Fin m → ℚ :=
  fun i k => if s k then -(coords i k) else coords i k

theorem compute_words_distance_flipSigns {n m : ℕ} (s : Fin m → Bool)
    (coords : Fin n → Fin m → ℚ) :
    compute_words_distance (flipSigns s coords) = compute_words_distance coords := by
  funext i j
  unfold compute_words_distance flipSigns
  refine Finset.sum_congr rfl fun k _ => ?_
  cases hs : s k
  · simp [hs]
  · simp only [hs, if_true]
    ring

/-! ## Nearest neighbors (manifold.py lines 164-174)

`compute_closest_neighbors` lives in `manifold_module`, missing from src;
it is modelled from spec §4.6, together with how `main` consumes its rows
(lines 170-171: `line[0]` is the word's own index, `line[1:]` its
neighbors). -/

/-- The neighbor ordering of spec §4.6 for word `i`: ascending distance,
ties broken by lower original row index. -/
def nborLE {n : ℕ} (d : Fin n → Fin n → ℚ) (i : Fin n) (a b : Fin n) : Prop :=
  d i a < d i b ∨ (d i a = d i b ∧ a.val ≤ b.val)

instance nborLE.instDecidableRel {n : ℕ} (d : Fin n → Fin n → ℚ) (i : Fin n) :
    DecidableRel (nborLE d i) := fun a b => by
  unfold nborLE; exact inferInstance

instance nborLE.instIsTotal {n : ℕ} (d : Fin n → Fin n → ℚ) (i : Fin n) :
    IsTotal (Fin n) (nborLE d i) := by
  constructor
  intro a b
  rcases lt_trichotomy (d i a) (d i b) with h | h | h
  · exact Or.inl (Or.inl h)
  · rcases Nat.le_total a.val b.val with hv | hv
    · exact Or.inl (Or.inr ⟨h, hv⟩)
    · exact Or.inr (Or.inr ⟨h.symm, hv⟩)
  · exact Or.inr (Or.inl h)

instance nborLE.instIsTrans {n : ℕ} (d : Fin n → Fin n → ℚ) (i : Fin n) :
    IsTrans (Fin n) (nborLE d i) := by
  constructor
  rintro a b c (hab | ⟨hab, hab2⟩) (hbc | ⟨hbc, hbc2⟩)
  · exact Or.inl (hab.trans hbc)
  · exact Or.inl (hbc ▸ hab)
  · exact Or.inl (hab ▸ hbc)
  · exact Or.inr ⟨hab.trans hbc, hab2.trans hbc2⟩

/-- Modelled from the spec: `compute_closest_neighbors` (manifold_module,
missing from src).  Per §4.6, for each word `i` select the `k` other
indices with smallest distance, ascending, ties broken by lower original
row index; when fewer than `k` other words exist, all of them are returned.
The row starts with the word's own index, since `main` reads `line[0]` as
the word and `line[1:]` as its neighbors (lines 170-171). -/
def compute_closest_neighbors {n : ℕ} (d : Fin n → Fin n → ℚ) (k : ℕ) (i : Fin n) :
    List (Fin n) :=
  i :: ((((List.finRange n).erase i).insertionSort (nborLE d i)).take k)

/-- The neighbor indices of word `i`: the row minus its leading own index
(`line[1:]` at manifold.py line 171). -/
def neighborIndices {n : ℕ} (d : Fin n → Fin n → ℚ) (k : ℕ) (i : Fin n) :
    List (Fin n) :=
  (compute_closest_neighbors d k i).drop 1

/-- Embeds manifold.py lines 168-174: the ordered word → neighbors mapping
built from the closest-neighbor rows.  `line.headD wordno` embeds
`line[0]`; the default branch is never taken since each row starts with
the word's own index. -/
def wordToNeighbors {n : ℕ} (awl : Fin n → String) (d : Fin n → Fin n → ℚ)
    (k : ℕ) : List (String × List String) :=
  (List.finRange n).map fun wordno =>
    let line := compute_closest_neighbors d k wordno
    (awl (line.headD wordno), (line.drop 1).map awl)

theorem neighborIndices_eq {n : ℕ} (d : Fin n → Fin n → ℚ) (k : ℕ) (i : Fin n) :
    neighborIndices d k i
      = (((List.finRange n).erase i).insertionSort (nborLE d i)).take k := rfl

theorem neighborIndices_nodup {n : ℕ} (d : Fin n → Fin n → ℚ) (k : ℕ) (i : Fin n) :
    (neighborIndices d k i).Nodup := by
  rw [neighborIndices_eq]
  refine List.Nodup.sublist (List.take_sublist _ _) ?_
  exact (List.perm_insertionSort _ _).nodup_iff.mpr
    (List.Nodup.erase i (List.nodup_finRange n))

theorem self_not_mem_neighborIndices {n : ℕ} (d : Fin n → Fin n → ℚ) (k : ℕ)
    (i : Fin n) : i ∉ neighborIndices d k i := by
  rw [neighborIndices_eq]
  intro h
  have h1 : i ∈ ((List.finRange n).erase i).insertionSort (nborLE d i) :=
    List.take_subset _ _ h
  rw [List.mem_insertionSort] at h1
  exact List.Nodup.not_mem_erase (List.nodup_finRange n) h1

theorem neighborIndices_length {n : ℕ} (d : Fin n → Fin n → ℚ) (k : ℕ) (i : Fin n) :
    (neighborIndices d k i).length = min k (n - 1) := by
  rw [neighborIndices_eq, List.length_take, List.length_insertionSort,
    List.length_erase_of_mem (List.mem_finRange i), List.length_finRange]

theorem pairwise_take_drop {α : Type} {r : α → α → Prop} {l : List α}
    (h : List.Pairwise r l) (k : ℕ) :
    ∀ a ∈ l.take k, ∀ b ∈ l.drop k, r a b := by
  have h2 : List.Pairwise r (l.take k ++ l.drop k) := by
    rw [List.take_append_drop]; exact h
  exact (List.pairwise_append.mp h2).2.2

theorem neighborIndices_sorted {n : ℕ} (d : Fin n → Fin n → ℚ) (k : ℕ) (i : Fin n) :
    List.Pairwise (nborLE d i) (neighborIndices d k i) := by
  rw [neighborIndices_eq]
  exact List.Pairwise.sublist (List.take_sublist _ _) (List.sorted_insertionSort _ _)

theorem neighborIndices_minimal {n : ℕ} (d : Fin n → Fin n → ℚ) (k : ℕ) (i : Fin n) :
    ∀ b ∈ (List.finRange n).erase i, b ∉ neighborIndices d k i →
      ∀ a ∈ neighborIndices d k i, nborLE d i a b := by
  intro b hb hbn a ha
  rw [neighborIndices_eq] at hbn ha
  have hsorted : List.Pairwise (nborLE d i)
      (((List.finRange n).erase i).insertionSort (nborLE d i)) :=
    List.sorted_insertionSort _ _
  have hbs : b ∈ ((List.finRange n).erase i).insertionSort (nborLE d i) := by
    rw [List.mem_insertionSort]; exact hb
  have hbdrop : b ∈ (((List.finRange n).erase i).insertionSort (nborLE d i)).drop k := by
    have h2 : b ∈ (((List.finRange n).erase i).insertionSort (nborLE d i)).take k
        ++ (((List.finRange n).erase i).insertionSort (nborLE d i)).drop k := by
      rw [List.take_append_drop]; exact hbs
    rcases List.mem_append.mp h2 with h | h
    · exact absurd h hbn
    · exact h
  exact pairwise_take_drop hsorted k a ha b hbdrop

/-! ## Stage dimension wiring of `main` (manifold.py lines 99-161) -/

/-- The row count of the context array and the dimension argument `main`
passes to each later matrix stage. -/
structure StageDims where
  contextArrayRows : ℕ
  normalizeArg : ℕ
  incidenceArg : ℕ
  laplacianArg : ℕ
  distanceArg : ℕ

/-- Embeds the dimension wiring of `main`: the context array has one row
per analyzed word (spec §3; `GetContextArray` is missing from src, and
`analyzedwordlist` has `nWordsForAnalysis` entries, line 106), while
lines 142, 145, 149 and 161 pass `maxwordtypes` — not `nWordsForAnalysis`
— as the dimension argument of `Normalize`, `compute_incidence_graph`,
`compute_laplacian` and `compute_words_distance`. -/
def mainStageDims (maxwordtypes lenMywords : ℕ) : StageDims where
  contextArrayRows := nWordsForAnalysis maxwordtypes lenMywords
  normalizeArg := maxwordtypes
  incidenceArg := maxwordtypes
  laplacianArg := maxwordtypes
  distanceArg := maxwordtypes

/-! ## Post-eigendecomposition diagnostics of `main` (lines 153-164)

`main` prints every status message unconditionally and deletes
`myeigenvalues` at line 156 without examining it, so no property of the
eigendecomposition (such as several near-zero eigenvalues) can influence
the caller-visible output.  The eigenvalues are a parameter of the
embedding precisely so that this independence is a statable fact. -/

/-- Embeds the console diagnostics `main` emits from the eigendecomposition
stage onward (manifold.py lines 153, 158, 164): a fixed message list;
`myeigenvalues` (the parameter) is never consulted (it is deleted at
line 156). -/
def mainEigenDiagnostics {n : ℕ} (_myeigenvalues : Fin n → ℚ) : List String :=
  ["Computing eigenvectors...",
   "Computing distances between words...",
   "Computing nearest neighbors now... "]

/-! ## Neighbors file and neighbor graph (manifold.py lines 176-186)

The neighbor graph is built by `GetMyGraph(outfilenameNeighbors)` (line
185): it re-reads the neighbors text file just written, not the in-memory
`WordToNeighbors` mapping.  Files are modelled as lists of lines; a line is
a list of characters. -/

/-- Embeds manifold.py lines 177-180: the header written to the neighbors
file — four comment lines and, because the format string ends in a newline
that `print` follows with its own, one empty line.  `language` and
`corpus` are taken to be newline-free (otherwise they would span lines). -/
def headerLines (language corpus : List Char) (maxwordtypes nNeighbors : ℕ) :
    List (List Char) :=
  ['#' :: (" language: ".toList ++ language),
   '#' :: (" corpus: ".toList ++ corpus),
   '#' :: (" Number of word types analyzed: ".toList ++ (Nat.repr maxwordtypes).toList),
   '#' :: (" Number of neighbors: ".toList ++ (Nat.repr nNeighbors).toList),
   []]

/-- Embeds manifold.py line 183: `print(word, " ".join(neighbors), file=f)`
— the word, the separating space contributed by `print`, then the
neighbors joined by single spaces. -/
def neighborLine (word : List Char) (neighbors : List (List Char)) : List Char :=
  word ++ ' ' :: List.intercalate [' '] neighbors

/-- Embeds manifold.py lines 176-183: the line sequence of the written
neighbors file — the header, then one line per `WordToNeighbors` entry. -/
def neighborsFileLines (language corpus : List Char) (maxwordtypes nNeighbors : ℕ)
    (entries : List (List Char × List (List Char))) : List (List Char) :=
  headerLines language corpus maxwordtypes nNeighbors
    ++ entries.map fun e => neighborLine e.1 e.2

/-- Python's whitespace `split()`: split on the space separator and drop
empty pieces (runs of separators and leading/trailing separators yield no
tokens). -/
def splitWords (l : List Char) : List (List Char) :=
  (l.splitOn ' ').filter fun w => !w.isEmpty

/-- Modelled from the spec: `GetMyGraph` (manifold_module, missing from
src).  Per the call at manifold.py line 185 it re-reads the just-written
neighbors file, and per §9 the exported graph has the words as nodes and an
edge from each word to each of its neighbors.  Comment lines (leading '#')
and empty lines are skipped; every other line contributes its first token
as a word node together with the remaining tokens as that word's
neighbors. -/
def GetMyGraph (lines : List (List Char)) :
    List (List Char × List (List Char)) :=
  (lines.filter fun l => !l.isEmpty && l.headD ' ' != '#').map
    fun l => ((splitWords l).headD [], (splitWords l).drop 1)

theorem splitOn_append_cons (w rest : List Char) (hws : ' ' ∉ w) :
    (w ++ ' ' :: rest).splitOn ' ' = w :: rest.splitOn ' ' := by
  simp only [List.splitOn]
  exact List.splitOnP_first _ _
    (fun x hx h => hws (by rw [beq_iff_eq] at h; exact h ▸ hx)) ' '
    (by decide) rest

theorem splitWords_neighborLine (w : List Char) (ns : List (List Char))
    (hw : w ≠ []) (hws : ' ' ∉ w)
    (hns : ∀ x ∈ ns, x ≠ [] ∧ ' ' ∉ x) :
    splitWords (neighborLine w ns) = w :: ns := by
  unfold splitWords neighborLine
  rw [splitOn_append_cons w _ hws]
  rcases eq_or_ne ns [] with rfl | hne
  · simp [List.intercalate, hw]
  · have hsplit : (List.intercalate [' '] ns).splitOn ' ' = ns :=
      List.splitOn_intercalate ns ' ' (fun l hl => (hns l hl).2) hne
    rw [hsplit]
    refine List.filter_eq_self.mpr ?_
    intro a ha
    rcases List.mem_cons.mp ha with rfl | ha2
    · simpa using hw
    · simpa using (hns a ha2).1

/-- C10: the neighbor graph is built by re-parsing the neighbors text file
that `main` just wrote (line 185), and for every word-to-neighbors mapping
whose words are nonempty, space-free and do not begin with the comment
character, the parsed graph encodes exactly the same word-to-neighbors
relation as the file. -/
theorem claim_C10_graph_file_round_trip (language corpus : List Char)
    (maxwordtypes nNeighbors : ℕ)
    (entries : List (List Char × List (List Char)))
    (hw : ∀ e ∈ entries, e.1 ≠ [] ∧ ' ' ∉ e.1 ∧ e.1.headD ' ' ≠ '#')
    (hn : ∀ e ∈ entries, ∀ x ∈ e.2, x ≠ [] ∧ ' ' ∉ x) :
    GetMyGraph (neighborsFileLines language corpus maxwordtypes nNeighbors entries)
      = entries := by
  unfold GetMyGraph neighborsFileLines
  rw [List.filter_append]
  have hheader : (headerLines language corpus maxwordtypes nNeighbors).filter
      (fun l => !l.isEmpty && l.headD ' ' != '#') = [] := by
    simp [headerLines]
  rw [hheader, List.nil_append]
  have hkeep : (entries.map fun e => neighborLine e.1 e.2).filter
      (fun l => !l.isEmpty && l.headD ' ' != '#')
      = entries.map fun e => neighborLine e.1 e.2 := by
    refine List.filter_eq_self.mpr ?_
    intro l hl
    obtain ⟨e, he, rfl⟩ := List.mem_map.mp hl
    obtain ⟨hne, hsp, hhash⟩ := hw e he
    cases h1 : e.1 with
    | nil => exact absurd h1 hne
    | cons c w2 =>
      simp only [neighborLine, List.cons_append, List.isEmpty_cons, Bool.not_false,
        List.headD_cons, Bool.true_and]
      rw [h1] at hhash
      simpa [bne_iff_ne] using hhash
  rw [hkeep, List.map_map]
  have h2 : entries.map ((fun l => ((splitWords l).headD [], (splitWords l).drop 1))
        ∘ fun e => neighborLine e.1 e.2) = entries.map id := by
    refine List.map_congr_left ?_
    intro e he
    obtain ⟨hne, hsp, -⟩ := hw e he
    simp only [Function.comp_apply, id]
    rw [splitWords_neighborLine e.1 e.2 hne hsp (hn e he)]
    simp
  rw [h2, List.map_id]

/-- A small concrete word-to-neighbors mapping ("cat" → ["dog", "the"],
"dog" → ["cat"]) for witnessing the file/graph round trip. -/
def sampleEntries : List (List Char × List (List Char)) :=
  [(['c', 'a', 't'], [['d', 'o', 'g'], ['t', 'h', 'e']]),
   (['d', 'o', 'g'], [['c', 'a', 't']])]

/-- C10 witnessed at a concrete mapping, language and corpus name. -/
theorem claim_C10_witness :
    (∀ e ∈ sampleEntries, e.1 ≠ [] ∧ ' ' ∉ e.1 ∧ e.1.headD ' ' ≠ '#')
    ∧ (∀ e ∈ sampleEntries, ∀ x ∈ e.2, x ≠ [] ∧ ' ' ∉ x)
    ∧ GetMyGraph (neighborsFileLines ['e', 'n'] ['c', 'o', 'r', 'p'] 4 9
        sampleEntries) = sampleEntries :=
  ⟨by decide, by decide,
    claim_C10_graph_file_round_trip ['e', 'n'] ['c', 'o', 'r', 'p'] 4 9
      sampleEntries (by decide) (by decide)⟩

/-! ## Claim theorems -/

/-- C1: the claim says every later matrix stage is dimensioned over the
clamped `N = min(maxwordtypes, vocabulary size)`.  With a vocabulary of 1
word and `maxwordtypes = 2`, the context array has the clamped
`min 2 1 = 1` rows, but `main` passes the unclamped `maxwordtypes = 2` as
the dimension argument of the normalization, incidence-graph, Laplacian
and distance stages (lines 142, 145, 149, 161), so those stages are not
dimensioned over the clamped N. -/
theorem claim_C1_stage_dims_bug :
    (mainStageDims 2 1).contextArrayRows = min 2 1
    ∧ (mainStageDims 2 1).normalizeArg = 2
    ∧ (mainStageDims 2 1).incidenceArg = 2
    ∧ (mainStageDims 2 1).laplacianArg = 2
    ∧ (mainStageDims 2 1).distanceArg = 2
    ∧ (mainStageDims 2 1).normalizeArg ≠ min 2 1 := by
  decide

/-- A concrete 3×3 eigenvector matrix whose first column is the constant
(trivial) eigenvector. -/
def trivialFirstEigvecs : Fin 3 → Fin 3 → ℚ :=
  fun i j => if j.val = 0 then 1 else if i = j then 1 else 0

/-- C2 counterexample: with 3 words and `nEigenvectors = 2`, the embedding
built at line 160 has `min 2 3 = 2` coordinates per word — not
`nEigenvectors − 1 = 1` — and coordinate 0 of every word is the constant
trivial eigenvector, which the claim says is dropped. -/
theorem claim_C2_counterexample :
    (min 2 3 ≠ 2 - 1)
    ∧ ∀ i : Fin 3, coordinates trivialFirstEigvecs 2 i ⟨0, by decide⟩ = 1 := by
  refine ⟨by decide, fun i => ?_⟩
  unfold coordinates trivialFirstEigvecs
  rfl

/-- C2 amended: the embedding has `min nEigenvectors N` coordinates per
word — the first `nEigenvectors` eigenvector columns, including the first
(trivial) one; in particular when the first eigenvector column is a
constant `c`, every word keeps `c` as its coordinate 0. -/
theorem claim_C2_amended {n : ℕ} (ev : Fin n → Fin n → ℚ) (nEig : ℕ) (c : ℚ)
    (hn : 0 < n) (hE : 0 < nEig) (hcol : ∀ i, ev i ⟨0, hn⟩ = c) :
    Fintype.card (Fin (min nEig n)) = min nEig n
    ∧ ∀ i, coordinates ev nEig i ⟨0, lt_min hE hn⟩ = c := by
  refine ⟨Fintype.card_fin _, fun i => ?_⟩
  unfold coordinates
  exact hcol i

/-- C2 amended, witnessed at the concrete 3×3 matrix with constant first
eigenvector and `nEigenvectors = 2`. -/
theorem claim_C2_amended_witness :
    Fintype.card (Fin (min 2 3)) = min 2 3
    ∧ ∀ i, coordinates trivialFirstEigvecs 2 i
        ⟨0, lt_min (by decide) (by decide)⟩ = 1 :=
  claim_C2_amended trivialFirstEigvecs 2 1 (by decide) (by decide) (by decide)

/-- C3 counterexample: a degenerate eigendecomposition — all four
eigenvalues 0, as for a similarity graph with four disconnected components
— produces exactly the same caller-visible diagnostics as a healthy
spectrum (eigenvalues 0,1,2,3): no warning or error distinguishes the two
runs, so the condition is not reported. -/
theorem claim_C3_counterexample :
    mainEigenDiagnostics (fun _ : Fin 4 => (0 : ℚ))
      = mainEigenDiagnostics (fun i : Fin 4 => (i.val : ℚ)) := rfl

/-- C3 amended: `main` performs no degeneracy reporting at all — the
diagnostics it emits from the eigendecomposition stage onward are the same
fixed message list for every eigendecomposition of every size, because the
eigenvalues are deleted unexamined at line 156. -/
theorem claim_C3_amended {n n2 : ℕ} (ev : Fin n → ℚ) (ev2 : Fin n2 → ℚ) :
    mainEigenDiagnostics ev = mainEigenDiagnostics ev2 := rfl

/-- C4: for every word the neighbor list (`line[1:]`) has no duplicates,
never contains the word itself, and has length `min k (n − 1)`; when
`n − 1 < k` this is the full set of other words, silently clamped, with no
failure. -/
theorem claim_C4_neighbor_list_shape {n : ℕ} (d : Fin n → Fin n → ℚ) (k : ℕ)
    (i : Fin n) :
    (neighborIndices d k i).Nodup
    ∧ i ∉ neighborIndices d k i
    ∧ (neighborIndices d k i).length = min k (n - 1) :=
  ⟨neighborIndices_nodup d k i, self_not_mem_neighborIndices d k i,
    neighborIndices_length d k i⟩

/-- C5: each word's neighbor list is ordered by non-decreasing distance,
and it consists of the smallest other words in the (distance, row index)
lexicographic order: every selected neighbor precedes every non-selected
other word in that order (ties broken by lower original row index). -/
theorem claim_C5_neighbor_ordering {n : ℕ} (d : Fin n → Fin n → ℚ) (k : ℕ)
    (i : Fin n) :
    List.Pairwise (fun a b => d i a ≤ d i b) (neighborIndices d k i)
    ∧ ∀ b ∈ (List.finRange n).erase i, b ∉ neighborIndices d k i →
        ∀ a ∈ neighborIndices d k i, nborLE d i a b := by
  constructor
  · refine (neighborIndices_sorted d k i).imp ?_
    rintro a b (h | ⟨h, -⟩)
    · exact le_of_lt h
    · exact le_of_eq h
  · exact neighborIndices_minimal d k i

/-- C6: a word with an all-zero context row gets zero normalized similarity
to and from every word (the zero-denominator guard yields the neutral
value; in exact arithmetic no NaN/Inf can arise), and for every distance
matrix the word still appears in the word-to-neighbors output with a
neighbor list of the documented length. -/
theorem claim_C6_zero_context_row {n c : ℕ} (A : Fin n → Fin c → ℕ) (i : Fin n)
    (h : ∀ k, A i k = 0) :
    (∀ j, Normalize (sharedContexts A) i j = 0
      ∧ Normalize (sharedContexts A) j i = 0)
    ∧ ∀ (awl : Fin n → String) (d : Fin n → Fin n → ℚ) (k : ℕ),
        (awl i, (neighborIndices d k i).map awl) ∈ wordToNeighbors awl d k
        ∧ (neighborIndices d k i).length = min k (n - 1) := by
  have hrow : ∀ j, sharedContexts A i j = 0 := by
    intro j
    unfold sharedContexts
    exact Finset.sum_eq_zero fun k _ => by rw [h k, Nat.zero_mul]
  constructor
  · intro j
    constructor
    · unfold Normalize
      rcases eq_or_ne i j with hij | hij
      · simp [hij]
      · simp [hij, hrow j]
    · unfold Normalize
      rcases eq_or_ne j i with hij | hij
      · simp [hij]
      · have : sharedContexts A j i = 0 := by rw [sharedContexts_symm, hrow j]
        simp [hij, this]
  · intro awl d k
    refine ⟨List.mem_map.mpr ⟨i, List.mem_finRange i, rfl⟩,
      neighborIndices_length d k i⟩

/-- A 2-word, 1-context array whose first word has an all-zero row. -/
def zeroRowArray : Fin 2 → Fin 1 → ℕ := fun i _ => if i = 0 then 0 else 3

/-- C6 witnessed at the concrete 2×1 context array whose word 0 has no
observed contexts. -/
theorem claim_C6_witness :
    (∀ j, Normalize (sharedContexts zeroRowArray) 0 j = 0
      ∧ Normalize (sharedContexts zeroRowArray) j 0 = 0)
    ∧ ∀ (awl : Fin 2 → String) (d : Fin 2 → Fin 2 → ℚ) (k : ℕ),
        (awl 0, (neighborIndices d k 0).map awl) ∈ wordToNeighbors awl d k
        ∧ (neighborIndices d k 0).length = min k (2 - 1) :=
  claim_C6_zero_context_row zeroRowArray 0 (by decide)

/-- C7: for every context array, the Laplacian the pipeline computes
(`L = D − W` over the normalized similarity, line 149) is symmetric and
every one of its row sums equals exactly 0, hence certainly lies within
the 1e-9 tolerance. -/
theorem claim_C7_laplacian_rows {n c : ℕ} (A : Fin n → Fin c → ℕ) :
    (∀ i j, pipelineLaplacian A i j = pipelineLaplacian A j i)
    ∧ ∀ i, (∑ j, pipelineLaplacian A i j) = 0
        ∧ |∑ j, pipelineLaplacian A i j| < 1 / 1000000000 := by
  refine ⟨fun i j => compute_laplacian_symm _ (pipelineAdjacency_symm A) i j,
    fun i => ?_⟩
  have h : (∑ j, pipelineLaplacian A i j) = 0 :=
    compute_laplacian_rowsum (pipelineAdjacency A) i
  exact ⟨h, by rw [h]; norm_num⟩

/-- A 1-word, 1-context array in which the word occurs twice in its only
context. -/
def doubleCountArray : Fin 1 → Fin 1 → ℕ := fun _ _ => 2

/-- C8 counterexample: a word occurring twice in its single context has
shared-context diagonal 4 (the dot product of its row with itself) while
its total context mass is 2, so the diagonal does not equal the word's
total context mass. -/
theorem claim_C8_counterexample :
    sharedContexts doubleCountArray 0 0 = 4
    ∧ totalContextMass doubleCountArray 0 = 2
    ∧ sharedContexts doubleCountArray 0 0 ≠ totalContextMass doubleCountArray 0 := by
  refine ⟨?_, ?_, ?_⟩ <;> decide

/-- C8 amended: the shared-context matrix is symmetric and entry (i,j) is
the dot product of rows i and j of the context array; the diagonal entry
(i,i) equals the sum of squares of word i's context counts, which
coincides with the total context mass only when every count is 0 or 1. -/
theorem claim_C8_amended {n c : ℕ} (A : Fin n → Fin c → ℕ) (i j : Fin n) :
    sharedContexts A i j = sharedContexts A j i
    ∧ sharedContexts A i j = ∑ k, A i k * A j k
    ∧ sharedContexts A i i = ∑ k, (A i k) ^ 2 :=
  ⟨sharedContexts_symm A i j, rfl, sharedContexts_diag_eq_sum_sq A i⟩

/-- C9: the word-to-neighbors mapping is a pure function of its inputs,
and it is invariant under any per-eigenvector sign choice: two runs whose
eigensolvers differ only in the signs of eigenvector columns produce the
identical mapping, because the (squared) Euclidean distances coincide. -/
theorem claim_C9_sign_invariance {n m : ℕ} (awl : Fin n → String)
    (coords : Fin n → Fin m → ℚ) (s : Fin m → Bool) (k : ℕ) :
    wordToNeighbors awl (compute_words_distance (flipSigns s coords)) k
      = wordToNeighbors awl (compute_words_distance coords) k := by
  rw [compute_words_distance_flipSigns]

end Manifold
